import Mathlib

/-!
# Verification of the photo clustering/distribution engine (`cluster.py`)

Shallow embedding of the plan-construction and plan-execution core:

* `build_plan_live` — plan construction from per-face detections and an
  opaque clustering oracle (the external `FaceAnalysis` detector and the
  HDBSCAN clusterer are modelled as injected functions, exactly as the spec
  treats them: opaque oracles).
* `distribute_to_folders` — filesystem mutation according to a plan, with an
  explicit filesystem state and an injected fault model for the four
  fallible operations (mkdir / move / copy / unlink).
* `process_group_folder` — the batch coordinator threading the cluster-id
  cursor across subfolders.

Python dictionaries are rendered as association lists or as membership
queries over the zipped (label, owner) list; Python `set`s as deduplicated
lists; `sorted(...)` as `List.insertionSort (· ≤ ·)`.  Exceptions are
rendered with `Except Unit`: an operation the Python code does *not* wrap in
`try/except` propagates as `Except.error`, a wrapped one is absorbed into
the state (the log line is observational and dropped).
-/

/-- A filesystem path, as its list of components (`Path` in the source). -/
abbrev FsPath := List String

/-- Python `str(path)` — used by the source only as a sort key (cleanup pass,
`sorted(moved_paths, key=lambda x: len(str(x)))`) and for `sorted(..., key=str)`. -/
def pathStr (p : FsPath) : String :=
  String.intercalate "/" p

/-- Python `path.parent`: all components but the last. -/
def fsParent (p : FsPath) : FsPath := p.dropLast

/-- Python `path.name`: the last component (empty for the root). -/
def fsName (p : FsPath) : String := p.getLast?.getD ""

/-- Python `sorted(set(l))`: the distinct elements of `l` in ascending
order. -/
def sortedDedup {α : Type} [LinearOrder α] (l : List α) : List α :=
  l.dedup.insertionSort (· ≤ ·)

theorem mem_sortedDedup {α : Type} [LinearOrder α] {l : List α} {a : α} :
    a ∈ sortedDedup l ↔ a ∈ l := by
  unfold sortedDedup
  rw [(List.perm_insertionSort _ _).mem_iff, List.mem_dedup]

theorem sortedDedup_nodup {α : Type} [LinearOrder α] (l : List α) :
    (sortedDedup l).Nodup :=
  (List.perm_insertionSort _ _).nodup_iff.mpr l.nodup_dedup

theorem sortedDedup_sorted {α : Type} [LinearOrder α] (l : List α) :
    (sortedDedup l).Sorted (· ≤ ·) :=
  List.sorted_insertionSort _ _

theorem sortedDedup_sorted_lt {α : Type} [LinearOrder α] (l : List α) :
    (sortedDedup l).Sorted (· < ·) :=
  (sortedDedup_sorted l).lt_of_le (sortedDedup_nodup l)

/-- In a duplicate-free list, the index of the `i`-th element is `i`. -/
theorem indexOf_get_of_nodup {α : Type} [DecidableEq α] {l : List α}
    (hnd : l.Nodup) (i : Fin l.length) : l.indexOf (l.get i) = i := by
  have hmem : l.get i ∈ l := l.get_mem i.1 i.2
  have hlt : l.indexOf (l.get i) < l.length := List.indexOf_lt_length.mpr hmem
  have h2 : l.get ⟨l.indexOf (l.get i), hlt⟩ = l.get i := List.indexOf_get hlt
  exact congrArg Fin.val ((List.Nodup.get_inj_iff hnd).mp h2)

/-- In a strictly sorted list, `indexOf` is strictly monotone on members. -/
theorem indexOf_lt_indexOf_of_sorted {α : Type} [LinearOrder α] {l : List α}
    (hs : l.Sorted (· < ·)) {a b : α} (ha : a ∈ l) (hb : b ∈ l) (hab : a < b) :
    l.indexOf a < l.indexOf b := by
  have hla : l.indexOf a < l.length := List.indexOf_lt_length.mpr ha
  have hlb : l.indexOf b < l.length := List.indexOf_lt_length.mpr hb
  by_contra hle
  push_neg at hle
  rcases lt_or_eq_of_le hle with hlt | heq
  · have := hs.rel_get_of_lt (a := ⟨l.indexOf b, hlb⟩) (b := ⟨l.indexOf a, hla⟩) hlt
    rw [List.indexOf_get, List.indexOf_get] at this
    exact absurd hab (lt_asymm this)
  · have : l.get ⟨l.indexOf b, hlb⟩ = l.get ⟨l.indexOf a, hla⟩ := by
      congr 1
      exact Fin.ext heq
    rw [List.indexOf_get, List.indexOf_get] at this
    exact absurd hab (this ▸ lt_irrefl b)

/-- Python string comparison (code-point lexicographic), as a
kernel-reducible boolean; used for the source's `sorted(..., key=str)` and
`sorted(group_dir.iterdir())`. -/
def lexLeNat : List Nat → List Nat → Bool
  | [], _ => true
  | _ :: _, [] => false
  | a :: as, b :: bs => if a < b then true else if b < a then false else lexLeNat as bs

def strLe (a b : String) : Bool :=
  lexLeNat (a.data.map Char.toNat) (b.data.map Char.toNat)

/-! ## Data model: the plan (`build_plan_live`'s return dict, lines 160-168) -/

/-- One entry of `plan["plan"]`: `{"path": ..., "cluster": sorted list,
"faces": count}`. -/
structure PlanItem where
  path : FsPath
  cluster : List Nat
  faces : Nat
deriving DecidableEq

/-- The dict returned by `build_plan_live`. -/
structure Plan where
  clusters : List (Nat × List FsPath)
  items : List PlanItem
  unreadable : List FsPath
  no_faces : List FsPath
deriving DecidableEq

/-! ## Analysis-phase oracles

Face detection and embedding extraction (`FaceAnalysis`, lines 49-51 and 76)
and the image decoder (`imread_safe`, lines 22-29) are external
collaborators; they are modelled as an injected per-path oracle.  Embedding
*values* are opaque tokens (`Nat`): the source's `astype(float64)` and
renormalisation (lines 88-91) transform values that are only ever consumed
by the clustering oracle, over which every theorem below quantifies, so the
value transformation is absorbed into that oracle. -/

/-- One detection returned by `app.get(img)`: a confidence score
(`det_score`, defaulting to 1.0 via `getattr` is modelled by the field
being total) and an optional embedding (`normed_embedding` may be `None`,
line 85-87). -/
structure Face where
  det_score : ℚ
  normed_embedding : Option Nat
deriving DecidableEq

/-- Outcome of decoding + detecting on one image path: `imread_safe`
returning `None` (line 72), or the detector's face list. -/
inductive ImgRead where
  | unreadable : ImgRead
  | image : List Face → ImgRead

/-- The faces of one image that pass the inner filter of lines 82-94:
`det_score < min_score → continue`; `normed_embedding is None → continue`. -/
def acceptedFaces (minScore : ℚ) (faces : List Face) : List Face :=
  faces.filter (fun f => !decide (f.det_score < minScore) && f.normed_embedding.isSome)

/-- Accumulator of the scan loop (lines 56-98): `embeddings`, `owners`,
`img_face_count`, `unreadable`, `no_faces`. -/
structure ScanResult where
  embeddings : List Nat
  owners : List FsPath
  img_face_count : List (FsPath × Nat)
  unreadable : List FsPath
  no_faces : List FsPath
deriving DecidableEq

/-- Body of the `for p in all_images` loop (lines 65-98), progress callback
and prints dropped (observational). -/
def scanStep (oracle : FsPath → ImgRead) (minScore : ℚ)
    (acc : ScanResult) (p : FsPath) : ScanResult :=
  match oracle p with
  | .unreadable => { acc with unreadable := acc.unreadable ++ [p] }
  | .image faces =>
    if faces.isEmpty then
      { acc with no_faces := acc.no_faces ++ [p] }
    else
      let acc1 := { acc with
        embeddings := acc.embeddings ++
          (acceptedFaces minScore faces).map (fun f => f.normed_embedding.getD 0),
        owners := acc.owners ++ (acceptedFaces minScore faces).map (fun _ => p) }
      let count := (acceptedFaces minScore faces).length
      if 0 < count then
        { acc1 with img_face_count := acc1.img_face_count ++ [(p, count)] }
      else acc1

/-- The scan loop over `all_images`. -/
def scanImages (allImages : List FsPath) (oracle : FsPath → ImgRead)
    (minScore : ℚ) : ScanResult :=
  allImages.foldl (scanStep oracle minScore) ⟨[], [], [], [], []⟩

/-! ## Label remapping and plan construction (lines 100-168) -/

/-- Line 127, `sorted(set(raw_labels) - {-1})`: the distinct non-noise raw
labels, ascending.  Set difference is rendered as dedup-of-filter. -/
def nonNoiseSorted (rawLabels : List Int) : List Int :=
  sortedDedup (rawLabels.filter (fun l => decide (l ≠ -1)))

/-- Line 127, `label_map`: dense local id (starting at 1) of a non-noise
raw label.  The Python dict would raise `KeyError` off its key set; the code
only ever queries keys present in `nonNoiseSorted`, where this total
function agrees with the dict. -/
def label_map (rawLabels : List Int) (l : Int) : Nat :=
  (nonNoiseSorted rawLabels).indexOf l + 1

/-- Line 132, `zip(raw_labels, owners)`. -/
def labelOwnerPairs (rawLabels : List Int) (owners : List FsPath) :
    List (Int × FsPath) :=
  rawLabels.zip owners

/-- The value `sorted(list(cluster_by_img.get(p, set())))` — the dict built by lines
129-137 rendered as a per-path query over the zipped list: the set of dense
labels of `p`'s non-noise faces, ascending. -/
def clustersOfImg (rawLabels : List Int) (owners : List FsPath) (p : FsPath) :
    List Nat :=
  sortedDedup (((labelOwnerPairs rawLabels owners).filter
      (fun x => decide (x.1 ≠ -1) && decide (x.2 = p))).map
    (fun x => label_map rawLabels x.1))

/-- Line 136, `cluster_map.setdefault(new_lbl, set()).add(path)`, on an
insertion-ordered association list with set-valued entries. -/
def addClusterMember (m : List (Nat × List FsPath)) (k : Nat) (p : FsPath) :
    List (Nat × List FsPath) :=
  match m with
  | [] => [(k, [p])]
  | (k', ps) :: rest =>
    if k' = k then (k', if p ∈ ps then ps else ps ++ [p]) :: rest
    else (k', ps) :: addClusterMember rest k p

/-- The dict `cluster_map` after the loop of lines 132-137 (keys in first-insertion
order, matching Python dict iteration order). -/
def rawClusterMap (rawLabels : List Int) (owners : List FsPath) :
    List (Nat × List FsPath) :=
  (labelOwnerPairs rawLabels owners).foldl
    (fun m x =>
      if x.1 = -1 then m
      else addClusterMember m (label_map rawLabels x.1) x.2) []

/-- The `"clusters"` entry of the result (lines 161-164): each member set
sorted by `str(path)`. -/
def clustersOutput (rawLabels : List Int) (owners : List FsPath) :
    List (Nat × List FsPath) :=
  (rawClusterMap rawLabels owners).map
    (fun kv => (kv.1, kv.2.insertionSort (fun a b => strLe (pathStr a) (pathStr b) = true)))

/-- Lines 31-168, `build_plan_live`, with the external detector and
clusterer injected.  `allImages` is the `rglob` listing of line 41 (image
discovery is a filesystem query, supplied as input).  If no embeddings were
collected, the empty plan is returned before the clustering stage (lines
100-109); otherwise `raw_labels = clusterOracle embeddings` (lines 121-122)
and the plan is assembled in `all_images` order (lines 143-152). -/
def build_plan_live (allImages : List FsPath) (oracle : FsPath → ImgRead)
    (minScore : ℚ) (clusterOracle : List Nat → List Int) : Plan :=
  let scan := scanImages allImages oracle minScore
  if scan.embeddings.isEmpty then
    { clusters := [], items := [], unreadable := scan.unreadable,
      no_faces := scan.no_faces }
  else
    let rawLabels := clusterOracle scan.embeddings
    let items := allImages.filterMap (fun p =>
      let cs := clustersOfImg rawLabels scan.owners p
      if cs.isEmpty then none
      else some { path := p, cluster := cs,
                  faces := (scan.img_face_count.lookup p).getD 0 })
    { clusters := clustersOutput rawLabels scan.owners,
      items := items,
      unreadable := scan.unreadable,
      no_faces := scan.no_faces }

instance {ε α : Type} [DecidableEq ε] [DecidableEq α] : DecidableEq (Except ε α) :=
  fun a b =>
    match a, b with
    | .ok x, .ok y =>
      if h : x = y then isTrue (by rw [h])
      else isFalse (by intro hc; cases hc; exact h rfl)
    | .error x, .error y =>
      if h : x = y then isTrue (by rw [h])
      else isFalse (by intro hc; cases hc; exact h rfl)
    | .ok _, .error _ => isFalse (by intro hc; cases hc)
    | .error _, .ok _ => isFalse (by intro hc; cases hc)

/-! ## Filesystem state and fault model for `distribute_to_folders`

The filesystem is the explicit state: a set of regular files and a set of
directories, each as a duplicate-free list of paths.  The four fallible
operations the source performs per item (`mkdir`, `shutil.move`,
`shutil.copy2`, `unlink`) are driven by an injected fault model; an
operation the source wraps in `try/except` absorbs its fault into the state
(the log line is dropped), while the *unwrapped* `mkdir` calls (lines 196
and 206) surface as `Except.error`, aborting `distribute_to_folders` the
way an uncaught Python exception would. -/

structure FS where
  files : List FsPath
  dirs : List FsPath
deriving DecidableEq

/-- Set-style insert (files and directories are sets of paths). -/
def insertPath (p : FsPath) (l : List FsPath) : List FsPath :=
  if p ∈ l then l else p :: l

def FS.addFile (fs : FS) (p : FsPath) : FS :=
  { fs with files := insertPath p fs.files }

def FS.removeFile (fs : FS) (p : FsPath) : FS :=
  { fs with files := fs.files.erase p }

def FS.rmdir (fs : FS) (p : FsPath) : FS :=
  { fs with dirs := fs.dirs.erase p }

/-- The nonempty prefixes of a path: the directories
`mkdir(parents=True)` ensures exist. -/
def dirPrefixes (d : FsPath) : List FsPath :=
  (List.range d.length).map (fun i => d.take (i + 1))

def FS.mkdirParents (fs : FS) (d : FsPath) : FS :=
  { fs with dirs := (dirPrefixes d).foldl (fun l q => if q ∈ l then l else l ++ [q]) fs.dirs }

/-- Python `not any(p.iterdir())`: no file or directory has `p` as immediate
parent. -/
def FS.dirEmpty (fs : FS) (p : FsPath) : Bool :=
  fs.files.all (fun f => !decide (fsParent f = p)) &&
    fs.dirs.all (fun d => !decide (fsParent d = p))

/-- Injected fault model: which filesystem operations raise. -/
structure ErrModel where
  mkdirErr : FsPath → Bool
  moveErr : FsPath → FsPath → Bool
  copyErr : FsPath → FsPath → Bool
  unlinkErr : FsPath → Bool

/-- The fault-free environment. -/
def noErr : ErrModel := ⟨fun _ => false, fun _ _ => false, fun _ _ => false, fun _ => false⟩

/-- The call `dst.parent.mkdir(parents=True, exist_ok=True)` — succeeds silently on
an existing directory (`exist_ok=True`), otherwise may raise; the raise is
NOT caught by the source (lines 196, 206 sit outside the `try` blocks). -/
def mkdirOp (err : ErrModel) (fs : FS) (d : FsPath) : Except Unit FS :=
  if d ∈ fs.dirs then .ok fs
  else if err.mkdirErr d then .error ()
  else .ok (fs.mkdirParents d)

/-- Lines 195 and 205: `base_dir / f"{cluster_id}" / src.name`. -/
def targetPath (base_dir : FsPath) (cluster_id : Nat) (src : FsPath) : FsPath :=
  base_dir ++ [toString cluster_id, fsName src]

/-- The mutable state threaded through the item loop of
`distribute_to_folders`: the filesystem plus `moved`, `copied`,
`moved_paths` (a Python set, rendered as a dedup-insert list). -/
structure ExecState where
  fs : FS
  moved : Nat
  copied : Nat
  moved_paths : List FsPath
deriving DecidableEq

/-- One iteration of the copy loop (lines 204-211): uncaught mkdir, then a
caught `shutil.copy2` (on success the target file appears and `copied` is
incremented; on failure only the log line, which is dropped). -/
def copyStep (base_dir : FsPath) (err : ErrModel) (src : FsPath)
    (s : ExecState) (cluster_id : Nat) : Except Unit ExecState := do
  let dst := targetPath base_dir cluster_id src
  let fs1 ← mkdirOp err s.fs (fsParent dst)
  if err.copyErr src dst then
    pure { s with fs := fs1 }
  else
    pure { s with fs := fs1.addFile dst, copied := s.copied + 1 }

/-- Body of the `for item in plan_items` loop (lines 183-215), minus the
observational progress callback.  Single membership: uncaught mkdir, then a
caught `shutil.move`; the `else` branch (zero or several memberships):
the copy loop, then one caught `unlink` of the original, attempted
regardless of how many copies succeeded. -/
def processItem (idMap : Nat → Nat) (base_dir : FsPath) (err : ErrModel)
    (st : ExecState) (item : PlanItem) : Except Unit ExecState :=
  let src := item.path
  let clusters := item.cluster.map idMap
  if src ∈ st.fs.files then
    match clusters with
    | [cluster_id] => do
        let dst := targetPath base_dir cluster_id src
        let fs1 ← mkdirOp err st.fs (fsParent dst)
        if err.moveErr src dst then
          pure { st with fs := fs1 }
        else
          pure { st with fs := (fs1.removeFile src).addFile dst,
                         moved := st.moved + 1,
                         moved_paths := insertPath (fsParent src) st.moved_paths }
    | _ => do
        let st1 ← clusters.foldlM (copyStep base_dir err src) st
        if err.unlinkErr src then
          pure st1
        else
          pure { st1 with fs := st1.fs.removeFile src }
  else
    pure st

def pathStrLen (p : FsPath) : Nat := (pathStr p).length

/-- One iteration of the cleanup loop (lines 222-226):
`if p.exists() and not any(p.iterdir()): p.rmdir()`.  `rmdir` on an
existing empty directory succeeds; the blanket `except: pass` absorbs any
raise, so no fault injection is needed for this loop. -/
def cleanupStep (s : ExecState) (p : FsPath) : ExecState :=
  if decide (p ∈ s.fs.dirs) && s.fs.dirEmpty p then { s with fs := s.fs.rmdir p }
  else s

/-- The cleanup pass (lines 221-226): visit the parents of singly-moved
sources, longest path string first. -/
def cleanupPass (st : ExecState) : ExecState :=
  (st.moved_paths.insertionSort (fun a b => pathStrLen b ≤ pathStrLen a)).foldl
    cleanupStep st

/-- Line 174, `used_clusters`: `sorted({c for item in plan for c in
item["cluster"]})`. -/
def used_clusters (plan : Plan) : List Nat :=
  sortedDedup (plan.items.flatMap (fun item => item.cluster))

/-- Line 175, `cluster_id_map`: `{old: cluster_start + idx}` over the
enumeration of `used_clusters`.  Total where the dict would raise
`KeyError`; the code only queries cluster ids drawn from the plan's items,
all of which are in `used_clusters`. -/
def cluster_id_map (plan : Plan) (cluster_start : Nat) (c : Nat) : Nat :=
  cluster_start + (used_clusters plan).indexOf c

/-- Lines 170-229, `distribute_to_folders`: fold the item loop over the
plan, run the cleanup pass, return
`(moved, copied, cluster_start + len(used_clusters))` together with the
final filesystem. -/
def distribute_to_folders (plan : Plan) (base_dir : FsPath) (cluster_start : Nat)
    (err : ErrModel) (fs : FS) : Except Unit (Nat × Nat × Nat × FS) := do
  let st ← plan.items.foldlM (processItem (cluster_id_map plan cluster_start) base_dir err)
    { fs := fs, moved := 0, copied := 0, moved_paths := [] }
  let stc := cleanupPass st
  pure (stc.moved, stc.copied, cluster_start + (used_clusters plan).length, stc.fs)

/-! ## The batch coordinator `process_group_folder` (lines 231-242) -/

/-- One directory entry of `group_dir.iterdir()`. -/
structure SubEntry where
  path : FsPath
  isDir : Bool
deriving DecidableEq

/-- Python `str.lower()` restricted to the ranges the marker check can meet:
ASCII and Cyrillic А-Я / Ё. -/
def charLower (c : Char) : Char :=
  if 0x410 ≤ c.toNat ∧ c.toNat ≤ 0x42F then Char.ofNat (c.toNat + 0x20)
  else if c.toNat = 0x401 then Char.ofNat 0x451
  else c.toLower

def lowerStr (s : String) : String := ⟨s.data.map charLower⟩

/-- The reserved "shared" marker of lines 41 and 236. -/
def sharedMarker : String := "общие"

/-- Does `needle` occur at the start of `hay`? -/
def matchesAt : List Char → List Char → Bool
  | [], _ => true
  | _ :: _, [] => false
  | a :: as, b :: bs => a == b && matchesAt as bs

/-- Python's `needle in hay` on strings (substring containment). -/
def hasSubstring (needle : List Char) : List Char → Bool
  | [] => matchesAt needle []
  | b :: bs => matchesAt needle (b :: bs) || hasSubstring needle bs

/-- Line 236: `"общие" in s.lower()`. -/
def containsShared (s : String) : Bool :=
  hasSubstring sharedMarker.data (lowerStr s).data

/-- The subfolder loop of `process_group_folder`, threading
`cluster_counter` and the filesystem.  `analyze` stands for the
`build_plan_live(subfolder)` call (line 240) with its external, fallible
stages (model initialisation, distance-matrix computation): a batch-fatal
analysis error is `Except.error`, and — as in the source, which wraps the
call in no `try/except` — it propagates out of the whole loop.  The third
result component records, for observation, the subfolders for which
distribution was actually performed (the information line 242's prints
expose). -/
def pgfLoop (analyze : FsPath → Except Unit Plan) (err : ErrModel) :
    List SubEntry → Nat → FS → List FsPath → Except Unit (Nat × FS × List FsPath)
  | [], cluster_counter, fs, trace => .ok (cluster_counter, fs, trace.reverse)
  | e :: rest, cluster_counter, fs, trace =>
    if !e.isDir then pgfLoop analyze err rest cluster_counter fs trace
    else if containsShared (fsName e.path) then pgfLoop analyze err rest cluster_counter fs trace
    else do
      let plan ← analyze e.path
      let r ← distribute_to_folders plan e.path cluster_counter err fs
      pgfLoop analyze err rest r.2.2.1 r.2.2.2 (e.path :: trace)

/-- Lines 231-242, `process_group_folder`: enumerate the entries of
`group_dir` in sorted order (Python sorts `Path`s; rendered as
code-point order on the rendered path), skip non-directories and
marker-named subfolders, and thread the cluster-id cursor, starting at 1,
through `distribute_to_folders`. -/
def process_group_folder (entries : List SubEntry)
    (analyze : FsPath → Except Unit Plan) (err : ErrModel) (fs : FS) :
    Except Unit (Nat × FS × List FsPath) :=
  pgfLoop analyze err
    (entries.insertionSort (fun a b => strLe (pathStr a.path) (pathStr b.path) = true))
    1 fs []

/-! ## Concrete data used by the witness theorems -/

/-- Concrete data for the C1 witness: a plan using distinct local ids
1, 2, 3 distributed from cursor 1. -/
def w1Plan : Plan :=
  { clusters := [], items := [⟨["g", "a.jpg"], [1], 1⟩, ⟨["g", "b.jpg"], [2, 3], 2⟩],
    unreadable := [], no_faces := [] }

def w1FS : FS := { files := [["g", "a.jpg"], ["g", "b.jpg"]], dirs := [["g"]] }

/-- Concrete data refuting claim C4 as stated: a fault model in which
`mkdir` raises. -/
def w4Plan : Plan :=
  { clusters := [], items := [⟨["g", "s", "a.jpg"], [1], 1⟩],
    unreadable := [], no_faces := [] }

def w4FS : FS := { files := [["g", "s", "a.jpg"]], dirs := [["g"], ["g", "s"]] }

/-- Every mkdir raises; everything else succeeds. -/
def w4Err : ErrModel := ⟨fun _ => true, fun _ _ => false, fun _ _ => false, fun _ => false⟩

/-- Every caught operation (move, copy, delete) raises; mkdir succeeds. -/
def w4ErrCaught : ErrModel := ⟨fun _ => false, fun _ _ => true, fun _ _ => true, fun _ => true⟩

/-- Concrete data for the C9 witness: the plan's only source path is
absent from the filesystem. -/
def w9Plan : Plan :=
  { clusters := [], items := [⟨["g", "s", "a.jpg"], [1], 1⟩, ⟨["g", "s", "b.jpg"], [1, 2], 2⟩],
    unreadable := [], no_faces := [] }

def w9FS : FS :=
  { files := [["g", "1", "a.jpg"]], dirs := [["g"], ["g", "1"], ["g", "2"]] }

/-- Concrete data for the C10 witness: both copies of a two-membership item
fail, the delete succeeds. -/
def w10St : ExecState :=
  { fs := { files := [["g", "s", "b.jpg"]], dirs := [["g"], ["g", "s"]] },
    moved := 0, copied := 0, moved_paths := [] }

def w10Item : PlanItem := ⟨["g", "s", "b.jpg"], [3, 7], 2⟩

def w10Err : ErrModel := ⟨fun _ => false, fun _ _ => false, fun _ _ => true, fun _ => false⟩

/-- Concrete data for the C8 witness: `g/s` was the parent of a singly
moved source and is empty; `g/t` still holds a file. -/
def w8St : ExecState :=
  { fs := { files := [["g", "t", "c.jpg"]], dirs := [["g"], ["g", "s"], ["g", "t"]] },
    moved := 1, copied := 0, moved_paths := [["g", "s"]] }

/-- Concrete data refuting claim C5 as stated: two subfolders, analysis of
the first fails. -/
def w5A : FsPath := ["grp", "a"]

def w5B : FsPath := ["grp", "b"]

def w5Entries : List SubEntry := [⟨w5A, true⟩, ⟨w5B, true⟩]

def w5Analyze : FsPath → Except Unit Plan := fun p =>
  if p = w5A then Except.error ()
  else Except.ok { clusters := [], items := [], unreadable := [], no_faces := [] }

def w5FS : FS := { files := [], dirs := [["grp"], ["grp", "a"], ["grp", "b"]] }

/-- Concrete data for the C6 witness: `d/a.jpg` has one face below the
threshold (score 0 < 1), `d/b.jpg` one above it. -/
def w6PA : FsPath := ["d", "a.jpg"]

def w6PB : FsPath := ["d", "b.jpg"]

def w6Faces : List Face := [⟨0, some 1⟩]

def w6Oracle : FsPath → ImgRead := fun q =>
  if q = w6PA then ImgRead.image w6Faces
  else ImgRead.image [⟨2, some 2⟩]

def w6CO : List Nat → List Int := fun es => es.map (fun _ => 0)

/-- Concrete data for the C7 witness: one unreadable image and one with
zero detections — no embeddings at all. -/
def w7Oracle : FsPath → ImgRead := fun q =>
  if q = w6PA then ImgRead.unreadable else ImgRead.image []

/-- Concrete data for the C3 witness: one singly- and one multiply-owned
file under `g/s`, distributed into `g`. -/
def w3St : ExecState :=
  { fs := { files := [["g", "s", "a.jpg"], ["g", "s", "b.jpg"]], dirs := [["g"], ["g", "s"]] },
    moved := 0, copied := 0, moved_paths := [] }

def w3ItemS : PlanItem := ⟨["g", "s", "a.jpg"], [3], 1⟩

def w3ItemM : PlanItem := ⟨["g", "s", "b.jpg"], [3, 7], 2⟩

/-- Concrete raw labels for the C2 witness: `[5, -1, 2, 5, 0]`, whose
distinct non-noise values `0 < 2 < 5` get ids `1, 2, 3`. -/
def w2Labels : List Int := [5, -1, 2, 5, 0]

/-! ## General lemmas about the embedding -/

theorem except_bind_error {ε α β : Type} (e : ε) (f : α → Except ε β) :
    (Except.error e >>= f) = Except.error e := rfl

theorem except_bind_ok {ε α β : Type} (a : α) (f : α → Except ε β) :
    (Except.ok a >>= f) = f a := rfl

theorem mem_insertPath {p x : FsPath} {l : List FsPath} :
    x ∈ insertPath p l ↔ x = p ∨ x ∈ l := by
  unfold insertPath
  split
  · constructor
    · exact Or.inr
    · rintro (rfl | hx)
      · assumption
      · assumption
  · exact List.mem_cons

theorem nodup_insertPath {p : FsPath} {l : List FsPath} (h : l.Nodup) :
    (insertPath p l).Nodup := by
  unfold insertPath
  split
  · exact h
  · exact List.nodup_cons.mpr ⟨by assumption, h⟩

theorem mem_foldl_dirInsert (qs : List FsPath) :
    ∀ (init : List FsPath) (x : FsPath),
      x ∈ qs.foldl (fun l q => if q ∈ l then l else l ++ [q]) init ↔ x ∈ init ∨ x ∈ qs := by
  induction qs with
  | nil => intro init x; simp
  | cons q qs ih =>
    intro init x
    rw [List.foldl_cons, ih]
    by_cases hq : q ∈ init
    · rw [if_pos hq]
      constructor
      · rintro (hx | hx)
        · exact Or.inl hx
        · exact Or.inr (List.mem_cons_of_mem _ hx)
      · rintro (hx | hx)
        · exact Or.inl hx
        · rcases List.mem_cons.mp hx with rfl | hx
          · exact Or.inl hq
          · exact Or.inr hx
    · rw [if_neg hq]
      simp only [List.mem_append, List.mem_singleton, List.mem_cons]
      tauto

theorem mem_mkdirParents {fs : FS} {d x : FsPath} :
    x ∈ (fs.mkdirParents d).dirs ↔ x ∈ fs.dirs ∨ x ∈ dirPrefixes d :=
  mem_foldl_dirInsert (dirPrefixes d) fs.dirs x

theorem self_mem_dirPrefixes {d : FsPath} (h : d ≠ []) : d ∈ dirPrefixes d := by
  unfold dirPrefixes
  have hlen : 0 < d.length := List.length_pos.mpr h
  refine List.mem_map.mpr ⟨d.length - 1, List.mem_range.mpr ?_, ?_⟩
  · omega
  · rw [Nat.sub_add_cancel hlen, List.take_length]

/-- Operation `mkdir(parents=True, exist_ok=True)` under a non-raising fault model:
succeeds, leaves the files alone, only adds directories, and afterwards the
requested directory exists. -/
theorem mkdirOp_ok (err : ErrModel) (fs : FS) (d : FsPath) (hd : d ≠ [])
    (he : err.mkdirErr d = false) :
    ∃ fs', mkdirOp err fs d = Except.ok fs'
      ∧ fs'.files = fs.files
      ∧ d ∈ fs'.dirs
      ∧ (∀ x ∈ fs.dirs, x ∈ fs'.dirs) := by
  unfold mkdirOp
  by_cases hmem : d ∈ fs.dirs
  · rw [if_pos hmem]
    exact ⟨fs, rfl, rfl, hmem, fun x hx => hx⟩
  · rw [if_neg hmem, he]
    refine ⟨fs.mkdirParents d, rfl, rfl, ?_, ?_⟩
    · exact mem_mkdirParents.mpr (Or.inr (self_mem_dirPrefixes hd))
    · intro x hx
      exact mem_mkdirParents.mpr (Or.inl hx)

theorem targetPath_parent (base : FsPath) (c : Nat) (src : FsPath) :
    fsParent (targetPath base c src) = base ++ [toString c] := by
  show (base ++ [toString c, fsName src]).dropLast = base ++ [toString c]
  have : base ++ [toString c, fsName src] = (base ++ [toString c]) ++ [fsName src] := by
    simp
  rw [this, List.dropLast_concat]

theorem targetPath_parent_ne_nil (base : FsPath) (c : Nat) (src : FsPath) :
    fsParent (targetPath base c src) ≠ [] := by
  rw [targetPath_parent]
  simp

/-- Specification of the copy loop over a list of global cluster ids, under
a fault model that raises on none of the touched operations. -/
theorem copyFold_spec (base : FsPath) (err : ErrModel) (src : FsPath) (gs : List Nat) :
    ∀ s : ExecState,
      (∀ g ∈ gs, err.mkdirErr (fsParent (targetPath base g src)) = false) →
      (∀ g ∈ gs, err.copyErr src (targetPath base g src) = false) →
      ∃ s', gs.foldlM (copyStep base err src) s = Except.ok s'
        ∧ s'.copied = s.copied + gs.length
        ∧ s'.moved = s.moved
        ∧ s'.moved_paths = s.moved_paths
        ∧ (∀ x : FsPath, x ∈ s'.fs.files ↔
            x ∈ s.fs.files ∨ ∃ g ∈ gs, x = targetPath base g src)
        ∧ (∀ x ∈ s.fs.dirs, x ∈ s'.fs.dirs)
        ∧ (∀ g ∈ gs, fsParent (targetPath base g src) ∈ s'.fs.dirs)
        ∧ (s.fs.files.Nodup → s'.fs.files.Nodup) := by
  induction gs with
  | nil =>
    intro s _ _
    refine ⟨s, rfl, by simp, rfl, rfl, by simp, fun x hx => hx, by simp, fun h => h⟩
  | cons g gs ih =>
    intro s hmk hcp
    obtain ⟨fs1, hfs1, hfiles1, hdmem, hdirsup⟩ :=
      mkdirOp_ok err s.fs (fsParent (targetPath base g src))
        (targetPath_parent_ne_nil base g src) (hmk g (List.mem_cons_self g gs))
    have hstep : copyStep base err src s g
        = Except.ok { s with fs := fs1.addFile (targetPath base g src),
                             copied := s.copied + 1 } := by
      simp only [copyStep]
      rw [hfs1, except_bind_ok,
        if_neg (by rw [hcp g (List.mem_cons_self g gs)]; exact Bool.false_ne_true)]
      rfl
    set s1 : ExecState := { s with fs := fs1.addFile (targetPath base g src),
                                   copied := s.copied + 1 } with hs1
    obtain ⟨s', hfold, hc, hm, hmp, hfiles, hdirs, hpar, hnd⟩ :=
      ih s1 (fun g' hg' => hmk g' (List.mem_cons_of_mem _ hg'))
        (fun g' hg' => hcp g' (List.mem_cons_of_mem _ hg'))
    refine ⟨s', ?_, ?_, hm, hmp, ?_, ?_, ?_, ?_⟩
    · rw [List.foldlM_cons, hstep, except_bind_ok, hfold]
    · rw [hc]
      show s.copied + 1 + gs.length = s.copied + (gs.length + 1)
      omega
    · intro x
      rw [hfiles]
      show (x ∈ insertPath (targetPath base g src) fs1.files ∨ _) ↔ _
      rw [hfiles1, mem_insertPath]
      constructor
      · rintro ((rfl | hx) | ⟨g', hg', rfl⟩)
        · exact Or.inr ⟨g, List.mem_cons_self g gs, rfl⟩
        · exact Or.inl hx
        · exact Or.inr ⟨g', List.mem_cons_of_mem _ hg', rfl⟩
      · rintro (hx | ⟨g', hg', rfl⟩)
        · exact Or.inl (Or.inr hx)
        · rcases List.mem_cons.mp hg' with rfl | hg'
          · exact Or.inl (Or.inl rfl)
          · exact Or.inr ⟨g', hg', rfl⟩
    · intro x hx
      exact hdirs x (hdirsup x hx)
    · intro g' hg'
      rcases List.mem_cons.mp hg' with rfl | hg'
      · exact hdirs _ hdmem
      · exact hpar g' hg'
    · intro hsnd
      apply hnd
      show (insertPath (targetPath base g src) fs1.files).Nodup
      rw [hfiles1]
      exact nodup_insertPath hsnd

/-! ## Claims -/

/-- Claim C1: `distribute_to_folders` assigns global ids by sorting the set
of distinct local cluster ids referenced in the plan's items and offsetting
them from `cluster_start` in that sorted order (the `i`-th smallest used
local id maps to `cluster_start + i`), and any successful run returns
`cluster_start + (number of distinct local ids)` as its third result; with
zero clusters the cursor is unchanged. -/
theorem claim1_global_id_assignment (plan : Plan) (cluster_start : Nat) :
    (used_clusters plan).Sorted (· < ·)
    ∧ (∀ c : Nat, c ∈ used_clusters plan ↔ ∃ item ∈ plan.items, c ∈ item.cluster)
    ∧ (∀ i : Fin (used_clusters plan).length,
        cluster_id_map plan cluster_start ((used_clusters plan).get i) = cluster_start + i.1)
    ∧ (used_clusters plan).length
        = (plan.items.flatMap (fun item => item.cluster)).dedup.length
    ∧ (∀ base_dir err fs m c n fs',
        distribute_to_folders plan base_dir cluster_start err fs = Except.ok (m, c, n, fs')
        → n = cluster_start + (used_clusters plan).length)
    ∧ (plan.items.flatMap (fun item => item.cluster) = []
        → cluster_start + (used_clusters plan).length = cluster_start) := by
  refine ⟨sortedDedup_sorted_lt _, ?_, ?_, ?_, ?_, ?_⟩
  · intro c
    rw [used_clusters, mem_sortedDedup, List.mem_flatMap]
  · intro i
    show cluster_start + (used_clusters plan).indexOf ((used_clusters plan).get i)
      = cluster_start + i.1
    rw [indexOf_get_of_nodup (l := used_clusters plan) (sortedDedup_nodup _) i]
  · unfold used_clusters sortedDedup
    exact (List.perm_insertionSort _ _).length_eq
  · intro base_dir err fs m c n fs' h
    unfold distribute_to_folders at h
    cases hf : plan.items.foldlM
        (processItem (cluster_id_map plan cluster_start) base_dir err)
        { fs := fs, moved := 0, copied := 0, moved_paths := [] } with
    | error e =>
      rw [hf, except_bind_error] at h
      exact Except.noConfusion h
    | ok st =>
      rw [hf, except_bind_ok] at h
      simp only [pure, Except.pure, Except.ok.injEq, Prod.mk.injEq] at h
      exact h.2.2.1.symm
  · intro hempty
    have h0 : used_clusters plan = [] := by
      unfold used_clusters
      rw [hempty]
      rfl
    rw [h0]
    rfl

theorem claim1_witness :
    cluster_id_map w1Plan 1 ((used_clusters w1Plan).get ⟨2, by decide⟩) = 1 + 2
    ∧ (4 : Nat) = 1 + (used_clusters w1Plan).length :=
  ⟨(claim1_global_id_assignment w1Plan 1).2.2.1 ⟨2, by decide⟩,
   (claim1_global_id_assignment w1Plan 1).2.2.2.2.1 ["g"] noErr w1FS 1 2 4
      { files := [["g", "3", "b.jpg"], ["g", "2", "b.jpg"], ["g", "1", "a.jpg"]],
        dirs := [["g"], ["g", "1"], ["g", "2"], ["g", "3"]] }
      (by decide)⟩

theorem mkdirOp_isOk (err : ErrModel) (fs : FS) (d : FsPath)
    (he : err.mkdirErr d = false) :
    ∃ fs', mkdirOp err fs d = Except.ok fs' := by
  unfold mkdirOp
  split
  · exact ⟨fs, rfl⟩
  · rw [he]
    exact ⟨_, rfl⟩

theorem copyFold_isOk (base : FsPath) (err : ErrModel) (src : FsPath)
    (hmk : ∀ d, err.mkdirErr d = false) (gs : List Nat) :
    ∀ s : ExecState, ∃ s', gs.foldlM (copyStep base err src) s = Except.ok s' := by
  induction gs with
  | nil => intro s; exact ⟨s, rfl⟩
  | cons g gs ih =>
    intro s
    obtain ⟨fs1, hfs1⟩ := mkdirOp_isOk err s.fs (fsParent (targetPath base g src)) (hmk _)
    have hstep : ∃ s1, copyStep base err src s g = Except.ok s1 := by
      simp only [copyStep]
      rw [hfs1, except_bind_ok]
      split
      · exact ⟨_, rfl⟩
      · exact ⟨_, rfl⟩
    obtain ⟨s1, hstep⟩ := hstep
    obtain ⟨s', hrest⟩ := ih s1
    exact ⟨s', by rw [List.foldlM_cons, hstep, except_bind_ok, hrest]⟩

theorem processItem_isOk (idMap : Nat → Nat) (base_dir : FsPath) (err : ErrModel)
    (hmk : ∀ d, err.mkdirErr d = false) (st : ExecState) (item : PlanItem) :
    ∃ st', processItem idMap base_dir err st item = Except.ok st' := by
  simp only [processItem]
  split
  · split
    · obtain ⟨fs1, hfs1⟩ := mkdirOp_isOk err st.fs _ (hmk _)
      rw [hfs1, except_bind_ok]
      split
      · exact ⟨_, rfl⟩
      · exact ⟨_, rfl⟩
    · obtain ⟨s1, hfold⟩ := copyFold_isOk base_dir err item.path hmk _ st
      rw [hfold, except_bind_ok]
      split
      · exact ⟨_, rfl⟩
      · exact ⟨_, rfl⟩
  · exact ⟨st, rfl⟩

theorem foldlM_ok_of_all_ok {α σ : Type} (f : σ → α → Except Unit σ)
    (h : ∀ s a, ∃ s', f s a = Except.ok s') (l : List α) :
    ∀ s, ∃ s', l.foldlM f s = Except.ok s' := by
  induction l with
  | nil => intro s; exact ⟨s, rfl⟩
  | cons a l ih =>
    intro s
    obtain ⟨s1, h1⟩ := h s a
    obtain ⟨s', hrest⟩ := ih s1
    exact ⟨s', by rw [List.foldlM_cons, h1, except_bind_ok, hrest]⟩

/-- Claim C4, amended: the move, copy and delete failures are caught and
never abort the batch — for any fault pattern on those three operations,
`distribute_to_folders` completes and returns a result.  (A `mkdir`
failure, by contrast, is raised outside the `try` blocks, lines 196 and
206, and aborts the batch: see the counterexample.) -/
theorem claim4_errors_caught (plan : Plan) (base_dir : FsPath) (cluster_start : Nat)
    (err : ErrModel) (fs : FS) (hmk : ∀ d, err.mkdirErr d = false) :
    ∃ r, distribute_to_folders plan base_dir cluster_start err fs = Except.ok r := by
  unfold distribute_to_folders
  obtain ⟨st, hfold⟩ := foldlM_ok_of_all_ok
    (processItem (cluster_id_map plan cluster_start) base_dir err)
    (fun s a => processItem_isOk _ _ _ hmk s a) plan.items
    { fs := fs, moved := 0, copied := 0, moved_paths := [] }
  rw [hfold, except_bind_ok]
  exact ⟨_, rfl⟩

/-- Claim C4 as stated is false on the code: a `mkdir` failure on the first
item is NOT caught — it aborts the whole batch, and no result is
returned. -/
theorem claim4_counterexample :
    ¬ ∃ r, distribute_to_folders w4Plan ["g"] 1 w4Err w4FS = Except.ok r := by
  rintro ⟨r, h⟩
  rw [show distribute_to_folders w4Plan ["g"] 1 w4Err w4FS = Except.error () from by decide] at h
  exact Except.noConfusion h

theorem claim4_witness :
    ∃ r, distribute_to_folders w4Plan ["g"] 1 w4ErrCaught w4FS = Except.ok r :=
  claim4_errors_caught w4Plan ["g"] 1 w4ErrCaught w4FS (fun _ => rfl)

/-- Claim C9: running `distribute_to_folders` on an already-distributed
tree — no source path of the plan's items exists any more — returns
`moved = 0` and `copied = 0`, raises no fatal error, and skips every item
(the filesystem is returned untouched). -/
theorem claim9_idempotent (plan : Plan) (base_dir : FsPath) (cluster_start : Nat)
    (err : ErrModel) (fs : FS)
    (h : ∀ item ∈ plan.items, item.path ∉ fs.files) :
    distribute_to_folders plan base_dir cluster_start err fs
      = Except.ok (0, 0, cluster_start + (used_clusters plan).length, fs) := by
  unfold distribute_to_folders
  have hfold : ∀ (items : List PlanItem) (st : ExecState),
      (∀ item ∈ items, item.path ∉ st.fs.files) →
      items.foldlM (processItem (cluster_id_map plan cluster_start) base_dir err) st
        = Except.ok st := by
    intro items
    induction items with
    | nil => intro st _; rfl
    | cons item rest ih =>
      intro st hmem
      have hstep : processItem (cluster_id_map plan cluster_start) base_dir err st item
          = Except.ok st := by
        simp only [processItem]
        rw [if_neg (hmem item (List.mem_cons_self item rest))]
        rfl
      rw [List.foldlM_cons, hstep, except_bind_ok]
      exact ih st (fun i hi => hmem i (List.mem_cons_of_mem _ hi))
  rw [hfold plan.items { fs := fs, moved := 0, copied := 0, moved_paths := [] } h,
    except_bind_ok]
  rfl

theorem claim9_witness :
    distribute_to_folders w9Plan ["g"] 5 noErr w9FS
      = Except.ok (0, 0, 5 + (used_clusters w9Plan).length, w9FS) :=
  claim9_idempotent w9Plan ["g"] 5 noErr w9FS (by decide)

/-- The copy loop when every `copy2` raises (and no mkdir raises): it
completes, changes no file and no counter. -/
theorem copyFold_allFail (base : FsPath) (err : ErrModel) (src : FsPath) (gs : List Nat) :
    ∀ s : ExecState,
      (∀ g ∈ gs, err.mkdirErr (fsParent (targetPath base g src)) = false) →
      (∀ g ∈ gs, err.copyErr src (targetPath base g src) = true) →
      ∃ s', gs.foldlM (copyStep base err src) s = Except.ok s'
        ∧ s'.fs.files = s.fs.files
        ∧ s'.copied = s.copied
        ∧ s'.moved = s.moved
        ∧ s'.moved_paths = s.moved_paths := by
  induction gs with
  | nil => intro s _ _; exact ⟨s, rfl, rfl, rfl, rfl, rfl⟩
  | cons g gs ih =>
    intro s hmk hcp
    obtain ⟨fs1, hfs1, hfiles1, _, _⟩ :=
      mkdirOp_ok err s.fs (fsParent (targetPath base g src))
        (targetPath_parent_ne_nil base g src) (hmk g (List.mem_cons_self g gs))
    have hstep : copyStep base err src s g = Except.ok { s with fs := fs1 } := by
      simp only [copyStep]
      rw [hfs1, except_bind_ok, if_pos (hcp g (List.mem_cons_self g gs))]
      rfl
    obtain ⟨s', hfold, hf, hc, hm, hmp⟩ :=
      ih { s with fs := fs1 } (fun g' hg' => hmk g' (List.mem_cons_of_mem _ hg'))
        (fun g' hg' => hcp g' (List.mem_cons_of_mem _ hg'))
    refine ⟨s', ?_, ?_, hc, hm, hmp⟩
    · rw [List.foldlM_cons, hstep, except_bind_ok, hfold]
    · rw [hf]
      exact hfiles1

/-- Claim C10: in the multi-membership branch, the delete of the original
is attempted unconditionally after the copy loop: for an item all of whose
copies fail (and whose delete succeeds), the original is removed anyway,
`copied` is not incremented, and the image is left with zero on-disk
replicas. -/
theorem claim10_unconditional_delete (idMap : Nat → Nat) (base_dir : FsPath)
    (err : ErrModel) (st : ExecState) (item : PlanItem)
    (h2 : 2 ≤ item.cluster.length)
    (hsrc : item.path ∈ st.fs.files)
    (hnd : st.fs.files.Nodup)
    (hmk : ∀ g ∈ item.cluster.map idMap,
      err.mkdirErr (fsParent (targetPath base_dir g item.path)) = false)
    (hcp : ∀ g ∈ item.cluster.map idMap,
      err.copyErr item.path (targetPath base_dir g item.path) = true)
    (hul : err.unlinkErr item.path = false) :
    ∃ st', processItem idMap base_dir err st item = Except.ok st'
      ∧ item.path ∉ st'.fs.files
      ∧ st'.copied = st.copied
      ∧ st'.fs.files = st.fs.files.erase item.path := by
  obtain ⟨a, t, hc⟩ := List.exists_cons_of_ne_nil
    (List.length_pos.mp (by omega) : item.cluster ≠ [])
  have hlen : 2 ≤ (a :: t).length := hc ▸ h2
  obtain ⟨b, cs, ht⟩ := List.exists_cons_of_ne_nil
    (List.length_pos.mp (by simp at hlen; omega) : t ≠ [])
  have hcl : item.cluster = a :: b :: cs := by rw [hc, ht]
  obtain ⟨s', hfold, hf, hcop, hm, hmp⟩ :=
    copyFold_allFail base_dir err item.path (item.cluster.map idMap) st hmk hcp
  rw [hcl, List.map_cons, List.map_cons] at hfold
  refine ⟨{ s' with fs := s'.fs.removeFile item.path }, ?_, ?_, hcop, ?_⟩
  · simp only [processItem, hcl, List.map_cons]
    rw [if_pos hsrc, hfold, except_bind_ok, if_neg (by simp [hul])]
    rfl
  · show item.path ∉ s'.fs.files.erase item.path
    rw [hf]
    exact hnd.not_mem_erase
  · show s'.fs.files.erase item.path = st.fs.files.erase item.path
    rw [hf]

theorem claim10_witness :
    ∃ st', processItem (fun c => c) ["g"] w10Err w10St w10Item = Except.ok st'
      ∧ w10Item.path ∉ st'.fs.files
      ∧ st'.copied = w10St.copied
      ∧ st'.fs.files = w10St.fs.files.erase w10Item.path :=
  claim10_unconditional_delete (fun c => c) ["g"] w10Err w10St w10Item (by decide)
    (by decide) (by decide) (by decide) (by decide) (by decide)

theorem cleanupStep_files (s : ExecState) (p : FsPath) :
    (cleanupStep s p).fs.files = s.fs.files := by
  unfold cleanupStep
  split <;> rfl

theorem cleanupStep_counters (s : ExecState) (p : FsPath) :
    (cleanupStep s p).moved = s.moved ∧ (cleanupStep s p).copied = s.copied
      ∧ (cleanupStep s p).moved_paths = s.moved_paths := by
  unfold cleanupStep
  split <;> exact ⟨rfl, rfl, rfl⟩

/-- Invariants of the cleanup loop over any visit list `ps`: files and
counters are untouched, directories only disappear, a directory not in the
visit list survives, and a directory that contains a file survives. -/
theorem cleanupFold_spec (ps : List FsPath) :
    ∀ st : ExecState,
      (ps.foldl cleanupStep st).fs.files = st.fs.files
      ∧ (ps.foldl cleanupStep st).moved = st.moved
      ∧ (ps.foldl cleanupStep st).copied = st.copied
      ∧ (ps.foldl cleanupStep st).moved_paths = st.moved_paths
      ∧ (∀ d, d ∈ (ps.foldl cleanupStep st).fs.dirs → d ∈ st.fs.dirs)
      ∧ (∀ d, d ∈ st.fs.dirs → d ∉ (ps.foldl cleanupStep st).fs.dirs → d ∈ ps)
      ∧ (∀ d, d ∈ st.fs.dirs → (∃ f ∈ st.fs.files, fsParent f = d) →
          d ∈ (ps.foldl cleanupStep st).fs.dirs) := by
  induction ps with
  | nil =>
    intro st
    exact ⟨rfl, rfl, rfl, rfl, fun d hd => hd,
      fun d hd hnd => absurd hd hnd, fun d hd _ => hd⟩
  | cons p ps ih =>
    intro st
    obtain ⟨ihf, ihm, ihc, ihmp, ihsub, ihrem, ihkeep⟩ := ih (cleanupStep st p)
    rw [List.foldl_cons]
    refine ⟨?_, ?_, ?_, ?_, ?_, ?_, ?_⟩
    · rw [ihf, cleanupStep_files]
    · rw [ihm, (cleanupStep_counters st p).1]
    · rw [ihc, (cleanupStep_counters st p).2.1]
    · rw [ihmp, (cleanupStep_counters st p).2.2]
    · intro d hd
      have h1 := ihsub d hd
      revert h1
      unfold cleanupStep
      split
      · exact fun h => List.erase_subset _ _ h
      · exact fun h => h
    · intro d hd hnd
      by_cases hstep : d ∈ (cleanupStep st p).fs.dirs
      · exact List.mem_cons_of_mem _ (ihrem d hstep hnd)
      · have hdp : d = p := by
          by_contra hne
          apply hstep
          unfold cleanupStep
          split
          · exact (List.mem_erase_of_ne hne).mpr hd
          · exact hd
        exact hdp ▸ List.mem_cons_self p ps
    · intro d hd hfile
      refine ihkeep d ?_ ?_
      · unfold cleanupStep
        split
        · rename_i hcond
          show d ∈ st.fs.dirs.erase p
          have hne : d ≠ p := by
            rintro rfl
            obtain ⟨f, hf, hpar⟩ := hfile
            have hempty : st.fs.dirEmpty d = true :=
              ((Bool.and_eq_true _ _).mp hcond).2
            unfold FS.dirEmpty at hempty
            rw [Bool.and_eq_true] at hempty
            have := (List.all_eq_true.mp hempty.1) f hf
            simp [hpar] at this
          exact (List.mem_erase_of_ne hne).mpr hd
        · exact hd
      · obtain ⟨f, hf, hp⟩ := hfile
        exact ⟨f, by rw [cleanupStep_files]; exact hf, hp⟩

theorem copyStep_ok_inv (base : FsPath) (err : ErrModel) (src : FsPath)
    (s : ExecState) (g : Nat) (s1 : ExecState)
    (h : copyStep base err src s g = Except.ok s1) :
    s1.moved_paths = s.moved_paths ∧ s1.moved = s.moved := by
  simp only [copyStep] at h
  cases hmk : mkdirOp err s.fs (fsParent (targetPath base g src)) with
  | error e =>
    rw [hmk, except_bind_error] at h
    exact Except.noConfusion h
  | ok fs1 =>
    rw [hmk, except_bind_ok] at h
    split at h <;> (injection h with h'; rw [← h']; exact ⟨rfl, rfl⟩)

theorem copyFold_ok_inv (base : FsPath) (err : ErrModel) (src : FsPath) (gs : List Nat) :
    ∀ s s' : ExecState, gs.foldlM (copyStep base err src) s = Except.ok s' →
      s'.moved_paths = s.moved_paths ∧ s'.moved = s.moved := by
  induction gs with
  | nil =>
    intro s s' h
    injection h with h'
    rw [← h']
    exact ⟨rfl, rfl⟩
  | cons g gs ih =>
    intro s s' h
    rw [List.foldlM_cons] at h
    cases hstep : copyStep base err src s g with
    | error e =>
      rw [hstep, except_bind_error] at h
      exact Except.noConfusion h
    | ok s1 =>
      rw [hstep, except_bind_ok] at h
      obtain ⟨h1, h2⟩ := copyStep_ok_inv base err src s g s1 hstep
      obtain ⟨h3, h4⟩ := ih s1 s' h
      exact ⟨h3.trans h1, h4.trans h2⟩

/-- The set `moved_paths` grows only by the immediate parent of a successfully
singly-moved source. -/
theorem processItem_moved_paths (idMap : Nat → Nat) (base_dir : FsPath)
    (err : ErrModel) (s : ExecState) (item : PlanItem) (s' : ExecState)
    (hok : processItem idMap base_dir err s item = Except.ok s') :
    ∀ d, d ∈ s'.moved_paths →
      d ∈ s.moved_paths
      ∨ (d = fsParent item.path ∧ (∃ c, item.cluster = [c]) ∧ s'.moved = s.moved + 1) := by
  intro d hd
  simp only [processItem] at hok
  by_cases hsrc : item.path ∈ s.fs.files
  · rw [if_pos hsrc] at hok
    split at hok
    · rename_i cluster_id heq
      cases hmk : mkdirOp err s.fs (fsParent (targetPath base_dir cluster_id item.path)) with
      | error e =>
        rw [hmk, except_bind_error] at hok
        exact Except.noConfusion hok
      | ok fs1 =>
        rw [hmk, except_bind_ok] at hok
        split at hok
        · injection hok with h'
          rw [← h'] at hd
          exact Or.inl hd
        · injection hok with h'
          rw [← h'] at hd
          rcases mem_insertPath.mp hd with heq2 | hmem
          · refine Or.inr ⟨heq2, ?_, by rw [← h']⟩
            cases hcl : item.cluster with
            | nil => rw [hcl] at heq; simp at heq
            | cons a t =>
              cases htl : t with
              | nil => exact ⟨a, rfl⟩
              | cons b cs => rw [hcl, htl] at heq; simp at heq
          · exact Or.inl hmem
    · cases hfold : List.foldlM (copyStep base_dir err item.path) s (item.cluster.map idMap) with
      | error e =>
        rw [hfold, except_bind_error] at hok
        exact Except.noConfusion hok
      | ok s1 =>
        rw [hfold, except_bind_ok] at hok
        obtain ⟨hmp, _⟩ := copyFold_ok_inv base_dir err item.path (item.cluster.map idMap) s s1 hfold
        split at hok <;> (injection hok with h'; rw [← h'] at hd; rw [hmp] at hd; exact Or.inl hd)
  · rw [if_neg hsrc] at hok
    injection hok with h'
    rw [← h'] at hd
    exact Or.inl hd

/-- Claim C8: the cleanup pass removes only directories that are immediate
parents of successfully singly-moved sources (so never an ancestor above
such a parent, nor any unrelated directory), leaves every directory that
still contains a file untouched, and touches no files. -/
theorem claim8_cleanup_shallow (st : ExecState) :
    (∀ d, d ∈ st.fs.dirs → d ∉ (cleanupPass st).fs.dirs → d ∈ st.moved_paths)
    ∧ (∀ d, d ∈ st.fs.dirs → (∃ f ∈ st.fs.files, fsParent f = d) →
        d ∈ (cleanupPass st).fs.dirs)
    ∧ (cleanupPass st).fs.files = st.fs.files
    ∧ (∀ (idMap : Nat → Nat) (base_dir : FsPath) (err : ErrModel)
        (s : ExecState) (item : PlanItem) (s' : ExecState),
        processItem idMap base_dir err s item = Except.ok s' →
        ∀ d, d ∈ s'.moved_paths →
          d ∈ s.moved_paths
          ∨ (d = fsParent item.path ∧ (∃ c, item.cluster = [c]) ∧ s'.moved = s.moved + 1)) := by
  obtain ⟨hf, _, _, _, _, hrem, hkeep⟩ :=
    cleanupFold_spec
      (st.moved_paths.insertionSort (fun a b => pathStrLen b ≤ pathStrLen a)) st
  refine ⟨?_, hkeep, hf, processItem_moved_paths⟩
  intro d hd hnd
  have := hrem d hd hnd
  exact (List.perm_insertionSort _ _).mem_iff.mp this

theorem claim8_witness :
    (["g", "t"] ∈ (cleanupPass w8St).fs.dirs)
    ∧ ["g", "s"] ∈ w8St.moved_paths :=
  ⟨(claim8_cleanup_shallow w8St).2.1 ["g", "t"] (by decide)
      ⟨["g", "t", "c.jpg"], by decide, by decide⟩,
   (claim8_cleanup_shallow w8St).1 ["g", "s"] (by decide) (by decide)⟩

/-- Claim C5, amended: a batch-fatal analysis error for a subfolder
propagates out of `process_group_folder` (the source wraps the
`build_plan_live` call in no `try/except`): the cursor is not advanced for
the failed subfolder, but — contrary to the claim — the coordinator does
not proceed to the next subfolder; the whole group run aborts. -/
theorem claim5_analysis_error_propagates (entries : List SubEntry)
    (analyze : FsPath → Except Unit Plan) (err : ErrModel) (fs : FS)
    (e : SubEntry) (rest : List SubEntry)
    (hsort : entries.insertionSort
        (fun a b => strLe (pathStr a.path) (pathStr b.path) = true) = e :: rest)
    (hdir : e.isDir = true)
    (hmark : containsShared (fsName e.path) = false)
    (hfail : analyze e.path = Except.error ()) :
    process_group_folder entries analyze err fs = Except.error () := by
  unfold process_group_folder
  rw [hsort]
  simp only [pgfLoop, hdir, hmark, Bool.not_true, Bool.false_eq_true, if_false, hfail,
    except_bind_error]

/-- Claim C5 as stated is false on the code: with subfolder `grp/a` failing
its analysis, `process_group_folder` does not continue with `grp/b` — it
returns no result at all (the exception escapes the loop). -/
theorem claim5_counterexample :
    ¬ ∃ r, process_group_folder w5Entries w5Analyze noErr w5FS = Except.ok r := by
  rintro ⟨r, h⟩
  rw [show process_group_folder w5Entries w5Analyze noErr w5FS = Except.error () from
    by decide] at h
  exact Except.noConfusion h

theorem claim5_witness :
    process_group_folder w5Entries w5Analyze noErr w5FS = Except.error () :=
  claim5_analysis_error_propagates w5Entries w5Analyze noErr w5FS ⟨w5A, true⟩ [⟨w5B, true⟩]
    (by decide) (by decide) (by decide) (by decide)

/-- Anything the scan loop appends to `owners` is the image just visited. -/
theorem scanStep_owners_sub (oracle : FsPath → ImgRead) (minScore : ℚ)
    (acc : ScanResult) (x q : FsPath)
    (h : q ∈ (scanStep oracle minScore acc x).owners) : q ∈ acc.owners ∨ q = x := by
  simp only [scanStep] at h
  cases ho : oracle x with
  | unreadable =>
    rw [ho] at h
    dsimp only at h
    exact Or.inl h
  | image fs =>
    rw [ho] at h
    dsimp only at h
    split at h
    · dsimp only at h
      exact Or.inl h
    · split at h <;> dsimp only at h <;>
        (rcases List.mem_append.mp h with hm | hm
         · exact Or.inl hm
         · exact Or.inr (List.mem_map.mp hm).choose_spec.2.symm)

/-- An image whose faces all fail the acceptance filter contributes no
owner entry. -/
theorem scanStep_owners_skip (oracle : FsPath → ImgRead) (minScore : ℚ)
    (acc : ScanResult) (p : FsPath) (faces : List Face)
    (hp : oracle p = ImgRead.image faces) (hne : faces ≠ [])
    (hacc : acceptedFaces minScore faces = []) :
    (scanStep oracle minScore acc p).owners = acc.owners := by
  have hef : faces.isEmpty = false := by
    cases faces with
    | nil => exact absurd rfl hne
    | cons f fs => rfl
  simp [scanStep, hp, hef, hacc]

/-- Anything the scan loop appends to `no_faces` is an image whose detector
returned zero detections. -/
theorem scanStep_no_faces_sub (oracle : FsPath → ImgRead) (minScore : ℚ)
    (acc : ScanResult) (x q : FsPath)
    (h : q ∈ (scanStep oracle minScore acc x).no_faces) :
    q ∈ acc.no_faces ∨ (q = x ∧ oracle x = ImgRead.image []) := by
  simp only [scanStep] at h
  cases ho : oracle x with
  | unreadable =>
    rw [ho] at h
    dsimp only at h
    exact Or.inl h
  | image fs =>
    rw [ho] at h
    dsimp only at h
    split at h
    · rename_i hemp
      dsimp only at h
      rcases List.mem_append.mp h with hm | hm
      · exact Or.inl hm
      · refine Or.inr ⟨List.mem_singleton.mp hm, ?_⟩
        rw [List.isEmpty_iff.mp hemp]
    · split at h <;> dsimp only at h <;> exact Or.inl h

/-- Whole-scan invariant for a sub-threshold image `p`: it never enters
`owners` and never enters `no_faces`. -/
theorem scan_skip_invariant (oracle : FsPath → ImgRead) (minScore : ℚ)
    (p : FsPath) (faces : List Face)
    (hp : oracle p = ImgRead.image faces) (hne : faces ≠ [])
    (hacc : acceptedFaces minScore faces = []) (l : List FsPath) :
    ∀ acc : ScanResult,
      (p ∉ acc.owners → p ∉ (l.foldl (scanStep oracle minScore) acc).owners)
      ∧ (p ∉ acc.no_faces → p ∉ (l.foldl (scanStep oracle minScore) acc).no_faces) := by
  induction l with
  | nil => intro acc; exact ⟨fun h => h, fun h => h⟩
  | cons x l ih =>
    intro acc
    rw [List.foldl_cons]
    obtain ⟨iho, ihn⟩ := ih (scanStep oracle minScore acc x)
    refine ⟨fun hpo => iho ?_, fun hpn => ihn ?_⟩
    · intro hmem
      rcases scanStep_owners_sub oracle minScore acc x p hmem with hm | rfl
      · exact hpo hm
      · rw [scanStep_owners_skip oracle minScore acc p faces hp hne hacc] at hmem
        exact hpo hmem
    · intro hmem
      rcases scanStep_no_faces_sub oracle minScore acc x p hmem with hm | ⟨rfl, hzero⟩
      · exact hpn hm
      · rw [hp] at hzero
        injection hzero with hfs
        exact hne hfs

/-- Whole-scan invariant: everything in `no_faces` had zero raw
detections. -/
theorem scan_no_faces_zero (oracle : FsPath → ImgRead) (minScore : ℚ) (l : List FsPath) :
    ∀ acc : ScanResult,
      (∀ q ∈ acc.no_faces, oracle q = ImgRead.image []) →
      ∀ q ∈ (l.foldl (scanStep oracle minScore) acc).no_faces, oracle q = ImgRead.image [] := by
  induction l with
  | nil => intro acc hinv; exact hinv
  | cons x l ih =>
    intro acc hinv
    rw [List.foldl_cons]
    refine ih (scanStep oracle minScore acc x) ?_
    intro q hq
    rcases scanStep_no_faces_sub oracle minScore acc x q hq with hm | ⟨rfl, hzero⟩
    · exact hinv q hm
    · exact hzero

theorem build_no_faces_eq (allImages : List FsPath) (oracle : FsPath → ImgRead)
    (minScore : ℚ) (clusterOracle : List Nat → List Int) :
    (build_plan_live allImages oracle minScore clusterOracle).no_faces
      = (scanImages allImages oracle minScore).no_faces := by
  simp only [build_plan_live]
  split <;> rfl

/-- An image that owns no embedding gets no cluster memberships. -/
theorem clustersOfImg_of_not_owner (rawLabels : List Int) (owners : List FsPath)
    (p : FsPath) (h : p ∉ owners) :
    clustersOfImg rawLabels owners p = [] := by
  unfold clustersOfImg
  have hfil : (labelOwnerPairs rawLabels owners).filter
      (fun x => decide (x.1 ≠ -1) && decide (x.2 = p)) = [] := by
    rw [List.filter_eq_nil_iff]
    rintro ⟨a, b⟩ ha
    have hb : b ∈ owners := (List.of_mem_zip ha).2
    simp only [Bool.and_eq_true, decide_eq_true_eq]
    rintro ⟨-, rfl⟩
    exact h hb
  rw [hfil]
  rfl

/-- Claim C6: an image all of whose detections fall below the minimum
confidence score yields zero embeddings, is absent from the plan's items
and from `no_faces`; and `no_faces` only ever holds images whose detection
step returned zero raw detections. -/
theorem claim6_subthreshold (allImages : List FsPath) (oracle : FsPath → ImgRead)
    (minScore : ℚ) (clusterOracle : List Nat → List Int) (p : FsPath)
    (faces : List Face)
    (hp : oracle p = ImgRead.image faces)
    (hne : faces ≠ [])
    (hlow : ∀ f ∈ faces, f.det_score < minScore) :
    p ∉ (scanImages allImages oracle minScore).owners
    ∧ p ∉ (build_plan_live allImages oracle minScore clusterOracle).no_faces
    ∧ (∀ item ∈ (build_plan_live allImages oracle minScore clusterOracle).items,
        item.path ≠ p)
    ∧ (∀ q ∈ (build_plan_live allImages oracle minScore clusterOracle).no_faces,
        oracle q = ImgRead.image []) := by
  have hacc : acceptedFaces minScore faces = [] := by
    rw [acceptedFaces, List.filter_eq_nil_iff]
    intro f hf
    simp only [Bool.and_eq_true, Bool.not_eq_true', decide_eq_false_iff_not, not_and, not_not]
    intro hns
    exact absurd (hlow f hf) hns
  have howners : p ∉ (scanImages allImages oracle minScore).owners :=
    (scan_skip_invariant oracle minScore p faces hp hne hacc allImages
      ⟨[], [], [], [], []⟩).1 (by simp)
  have hnf : p ∉ (scanImages allImages oracle minScore).no_faces :=
    (scan_skip_invariant oracle minScore p faces hp hne hacc allImages
      ⟨[], [], [], [], []⟩).2 (by simp)
  refine ⟨howners, ?_, ?_, ?_⟩
  · rw [build_no_faces_eq]
    exact hnf
  · intro item hitem
    simp only [build_plan_live] at hitem
    split at hitem
    · simp at hitem
    · rcases List.mem_filterMap.mp hitem with ⟨q, hq, hsome⟩
      split at hsome
      · exact absurd hsome (by simp)
      · rename_i hcs
        injection hsome with hitem'
        rw [← hitem']
        intro hpq
        simp only at hpq
        rw [hpq] at hcs
        rw [clustersOfImg_of_not_owner _ _ p howners] at hcs
        simp at hcs
  · intro q hq
    rw [build_no_faces_eq] at hq
    exact scan_no_faces_zero oracle minScore allImages ⟨[], [], [], [], []⟩
      (by simp) q hq

theorem claim6_witness :
    w6PA ∉ (scanImages [w6PA, w6PB] w6Oracle 1).owners
    ∧ w6PA ∉ (build_plan_live [w6PA, w6PB] w6Oracle 1 w6CO).no_faces
    ∧ (∀ item ∈ (build_plan_live [w6PA, w6PB] w6Oracle 1 w6CO).items,
        item.path ≠ w6PA)
    ∧ (∀ q ∈ (build_plan_live [w6PA, w6PB] w6Oracle 1 w6CO).no_faces,
        w6Oracle q = ImgRead.image []) :=
  claim6_subthreshold [w6PA, w6PB] w6Oracle 1 w6CO w6PA w6Faces (by rfl)
    (by decide) (by decide)

/-- Claim C7: if the scan collected no embeddings, `build_plan_live`
returns the empty plan (empty clusters, empty items, diagnostics passed
through) and its result does not depend on the clustering oracle — the
oracle is never consulted. -/
theorem claim7_empty_short_circuit (allImages : List FsPath) (oracle : FsPath → ImgRead)
    (minScore : ℚ) (clusterOracle : List Nat → List Int)
    (h : (scanImages allImages oracle minScore).embeddings = []) :
    build_plan_live allImages oracle minScore clusterOracle
      = { clusters := [], items := [],
          unreadable := (scanImages allImages oracle minScore).unreadable,
          no_faces := (scanImages allImages oracle minScore).no_faces }
    ∧ (∀ other : List Nat → List Int,
        build_plan_live allImages oracle minScore other
          = build_plan_live allImages oracle minScore clusterOracle) := by
  have hc : (scanImages allImages oracle minScore).embeddings.isEmpty = true := by
    rw [h]
    rfl
  have hb : ∀ co : List Nat → List Int,
      build_plan_live allImages oracle minScore co
        = { clusters := [], items := [],
            unreadable := (scanImages allImages oracle minScore).unreadable,
            no_faces := (scanImages allImages oracle minScore).no_faces } := by
    intro co
    simp [build_plan_live, hc]
  exact ⟨hb clusterOracle, fun other => (hb other).trans (hb clusterOracle).symm⟩

theorem claim7_witness :
    build_plan_live [w6PA, w6PB] w7Oracle 1 w6CO
      = { clusters := [], items := [],
          unreadable := (scanImages [w6PA, w6PB] w7Oracle 1).unreadable,
          no_faces := (scanImages [w6PA, w6PB] w7Oracle 1).no_faces } :=
  (claim7_empty_short_circuit [w6PA, w6PB] w7Oracle 1 w6CO (by rfl)).1

/-- Claim C2: `build_plan_live`'s `label_map` sends the distinct non-noise
raw labels (sentinel -1 excluded) to exactly the dense local ids `1..K`
(`K` = number of distinct non-noise raw labels), in ascending order of raw
label value. -/
theorem claim2_label_map (rawLabels : List Int) :
    ((nonNoiseSorted rawLabels).map (label_map rawLabels)
        = List.range' 1 (nonNoiseSorted rawLabels).length)
    ∧ (∀ l : Int, l ∈ nonNoiseSorted rawLabels ↔ l ∈ rawLabels ∧ l ≠ -1)
    ∧ (∀ l1 l2 : Int, l1 ∈ nonNoiseSorted rawLabels → l2 ∈ nonNoiseSorted rawLabels →
        l1 < l2 → label_map rawLabels l1 < label_map rawLabels l2) := by
  refine ⟨?_, ?_, ?_⟩
  · apply List.ext_getElem
    · rw [List.length_map, List.length_range']
    · intro n h1 h2
      rw [List.length_map] at h1
      rw [List.getElem_map, List.getElem_range']
      simp only [Nat.one_mul]
      show (nonNoiseSorted rawLabels).indexOf
        ((nonNoiseSorted rawLabels).get ⟨n, h1⟩) + 1 = 1 + n
      rw [indexOf_get_of_nodup (l := nonNoiseSorted rawLabels) (sortedDedup_nodup _) ⟨n, h1⟩,
        Nat.add_comm]
  · intro l
    simp [nonNoiseSorted, mem_sortedDedup, List.mem_filter]
  · intro l1 l2 h1 h2 hlt
    have := indexOf_lt_indexOf_of_sorted (sortedDedup_sorted_lt _) h1 h2 hlt
    exact Nat.add_lt_add_right this 1

/-- Claim C3: for an item whose source exists, single membership moves the
file into `base_dir/<globalId>/<filename>` (target directory created on
demand), counts it once in `moved` and leaves nothing at the source path;
two or more memberships copy the file once into each target directory
(each copy incrementing `copied`) and then delete the original. -/
theorem claim3_item_semantics :
    (∀ (idMap : Nat → Nat) (base_dir : FsPath) (err : ErrModel) (st : ExecState)
        (item : PlanItem) (c : Nat),
      item.cluster = [c] →
      item.path ∈ st.fs.files →
      st.fs.files.Nodup →
      err.mkdirErr (fsParent (targetPath base_dir (idMap c) item.path)) = false →
      err.moveErr item.path (targetPath base_dir (idMap c) item.path) = false →
      targetPath base_dir (idMap c) item.path ≠ item.path →
      ∃ st', processItem idMap base_dir err st item = Except.ok st'
        ∧ targetPath base_dir (idMap c) item.path ∈ st'.fs.files
        ∧ item.path ∉ st'.fs.files
        ∧ fsParent (targetPath base_dir (idMap c) item.path) ∈ st'.fs.dirs
        ∧ st'.moved = st.moved + 1
        ∧ st'.copied = st.copied)
    ∧ (∀ (idMap : Nat → Nat) (base_dir : FsPath) (err : ErrModel) (st : ExecState)
        (item : PlanItem),
      2 ≤ item.cluster.length →
      item.path ∈ st.fs.files →
      st.fs.files.Nodup →
      (∀ g ∈ item.cluster.map idMap,
        err.mkdirErr (fsParent (targetPath base_dir g item.path)) = false) →
      (∀ g ∈ item.cluster.map idMap,
        err.copyErr item.path (targetPath base_dir g item.path) = false) →
      err.unlinkErr item.path = false →
      (∀ g ∈ item.cluster.map idMap, targetPath base_dir g item.path ≠ item.path) →
      ∃ st', processItem idMap base_dir err st item = Except.ok st'
        ∧ (∀ g ∈ item.cluster.map idMap, targetPath base_dir g item.path ∈ st'.fs.files)
        ∧ item.path ∉ st'.fs.files
        ∧ st'.copied = st.copied + item.cluster.length
        ∧ st'.moved = st.moved) := by
  constructor
  · intro idMap base_dir err st item c hcl hsrc hnd hmk hmv hne
    obtain ⟨fs1, hfs1, hfiles1, hdmem, hdirsup⟩ :=
      mkdirOp_ok err st.fs (fsParent (targetPath base_dir (idMap c) item.path))
        (targetPath_parent_ne_nil base_dir (idMap c) item.path) hmk
    refine ⟨{ st with
        fs := (fs1.removeFile item.path).addFile (targetPath base_dir (idMap c) item.path),
        moved := st.moved + 1,
        moved_paths := insertPath (fsParent item.path) st.moved_paths },
      ?_, ?_, ?_, ?_, rfl, rfl⟩
    · simp only [processItem, hcl, List.map_cons, List.map_nil]
      rw [if_pos hsrc, hfs1, except_bind_ok, if_neg (by simp [hmv])]
      rfl
    · exact mem_insertPath.mpr (Or.inl rfl)
    · show item.path ∉ insertPath _ (fs1.files.erase item.path)
      rw [mem_insertPath]
      rintro (heq | hmem)
      · exact hne heq.symm
      · rw [hfiles1] at hmem
        exact hnd.not_mem_erase hmem
    · exact hdmem
  · intro idMap base_dir err st item h2 hsrc hnd hmk hcp hul hne
    obtain ⟨a, t, hc⟩ := List.exists_cons_of_ne_nil
      (List.length_pos.mp (by omega) : item.cluster ≠ [])
    have hlen : 2 ≤ (a :: t).length := hc ▸ h2
    obtain ⟨b, cs, ht⟩ := List.exists_cons_of_ne_nil
      (List.length_pos.mp (by simp at hlen; omega) : t ≠ [])
    have hcl : item.cluster = a :: b :: cs := by rw [hc, ht]
    obtain ⟨s', hfold, hc', hm, hmp, hfiles, hdirs, hpar, hndp⟩ :=
      copyFold_spec base_dir err item.path (item.cluster.map idMap) st hmk hcp
    rw [hcl, List.map_cons, List.map_cons] at hfold
    refine ⟨{ s' with fs := s'.fs.removeFile item.path }, ?_, ?_, ?_, ?_, hm⟩
    · simp only [processItem, hcl, List.map_cons]
      rw [if_pos hsrc, hfold, except_bind_ok, if_neg (by simp [hul])]
      rfl
    · intro g hg
      show _ ∈ s'.fs.files.erase item.path
      rw [(hndp hnd).mem_erase_iff]
      exact ⟨hne g hg, (hfiles _).mpr (Or.inr ⟨g, hg, rfl⟩)⟩
    · exact (hndp hnd).not_mem_erase
    · rw [hc', List.length_map]

theorem claim3_witness :
    (∃ st', processItem (fun c => c) ["g"] noErr w3St w3ItemS = Except.ok st'
      ∧ targetPath ["g"] 3 w3ItemS.path ∈ st'.fs.files
      ∧ w3ItemS.path ∉ st'.fs.files
      ∧ fsParent (targetPath ["g"] 3 w3ItemS.path) ∈ st'.fs.dirs
      ∧ st'.moved = w3St.moved + 1
      ∧ st'.copied = w3St.copied)
    ∧ (∃ st', processItem (fun c => c) ["g"] noErr w3St w3ItemM = Except.ok st'
      ∧ (∀ g ∈ w3ItemM.cluster.map (fun c => c),
          targetPath ["g"] g w3ItemM.path ∈ st'.fs.files)
      ∧ w3ItemM.path ∉ st'.fs.files
      ∧ st'.copied = w3St.copied + w3ItemM.cluster.length
      ∧ st'.moved = w3St.moved) :=
  ⟨claim3_item_semantics.1 (fun c => c) ["g"] noErr w3St w3ItemS 3 (by decide) (by decide)
      (by decide) (by decide) (by decide) (by decide),
   claim3_item_semantics.2 (fun c => c) ["g"] noErr w3St w3ItemM (by decide) (by decide)
      (by decide) (by decide) (by decide) (by decide) (by decide)⟩

theorem claim2_witness :
    ((5 : Int) ∈ nonNoiseSorted w2Labels ↔ (5 : Int) ∈ w2Labels ∧ (5 : Int) ≠ -1)
    ∧ label_map w2Labels 0 < label_map w2Labels 5 :=
  ⟨(claim2_label_map w2Labels).2.1 5,
   (claim2_label_map w2Labels).2.2 0 5 (by decide) (by decide) (by decide)⟩

